import Mathlib

/-!
Verification of the permission-resolution and session-persistence core of the
Dash_app repository (src/app/auth/service.py, src/app/auth/session.py,
src/app/admin/service.py, src/app/ui/pages/login.py).

The Python code is shallowly embedded: ORM rows become Lean structures, the
SQLAlchemy session becomes explicit list-of-rows state, Python dicts become
association lists (insertion ordered, like CPython dicts), Python sets become
duplicate-free lists (membership-checked insertion; they are sorted before
being returned, so ordering is irrelevant), and timestamps become integers.
Python's lexicographic string ordering (by Unicode code point) is embedded as
an executable comparison on the underlying character lists.
-/

/-- Lexicographic comparison of character lists by Unicode code point,
the ordering Python's `sorted` uses on strings. -/
def charListLe : List Char → List Char → Bool
  | [], _ => true
  | _ :: _, [] => false
  | a :: as, b :: bs =>
    if a.toNat < b.toNat then true
    else if b.toNat < a.toNat then false
    else charListLe as bs

/-- Lexicographic string comparison by code point (Python string ordering). -/
def strLeB (a b : String) : Bool := charListLe a.data b.data

/-- Propositional form of the lexicographic string order. -/
def StrLe (a b : String) : Prop := strLeB a b = true

instance : DecidableRel StrLe := fun a b =>
  inferInstanceAs (Decidable (strLeB a b = true))

theorem charListLe_total (a b : List Char) : charListLe a b = true ∨ charListLe b a = true := by
  induction a generalizing b with
  | nil => left; rfl
  | cons x xs ih =>
    cases b with
    | nil => right; rfl
    | cons y ys =>
      by_cases hxy : x.toNat < y.toNat
      · left; simp [charListLe, hxy]
      · by_cases hyx : y.toNat < x.toNat
        · right; simp [charListLe, hyx]
        · rcases ih ys with h | h
          · left; simp [charListLe, hxy, hyx, h]
          · right; simp [charListLe, hxy, hyx, h]

theorem charListLe_trans (a b c : List Char) (hab : charListLe a b = true)
    (hbc : charListLe b c = true) : charListLe a c = true := by
  induction a generalizing b c with
  | nil => rfl
  | cons x xs ih =>
    cases b with
    | nil => simp [charListLe] at hab
    | cons y ys =>
      cases c with
      | nil => simp [charListLe] at hbc
      | cons z zs =>
        simp only [charListLe] at hab hbc ⊢
        by_cases hxy : x.toNat < y.toNat
        · by_cases hyz : y.toNat < z.toNat
          · have : x.toNat < z.toNat := Nat.lt_trans hxy hyz
            simp [this]
          · by_cases hzy : z.toNat < y.toNat
            · simp [hyz, hzy] at hbc
            · have hyzeq : y.toNat = z.toNat := Nat.le_antisymm (Nat.le_of_not_lt hzy) (Nat.le_of_not_lt hyz)
              have : x.toNat < z.toNat := hyzeq ▸ hxy
              simp [this]
        · by_cases hyx : y.toNat < x.toNat
          · simp [hxy, hyx] at hab
          · have hxyeq : x.toNat = y.toNat := Nat.le_antisymm (Nat.le_of_not_lt hyx) (Nat.le_of_not_lt hxy)
            by_cases hyz : y.toNat < z.toNat
            · have : x.toNat < z.toNat := hxyeq ▸ hyz
              simp [this]
            · by_cases hzy : z.toNat < y.toNat
              · simp [hyz, hzy] at hbc
              · have hyzeq : y.toNat = z.toNat := Nat.le_antisymm (Nat.le_of_not_lt hzy) (Nat.le_of_not_lt hyz)
                have hxz : ¬ x.toNat < z.toNat := by omega
                have hzx : ¬ z.toNat < x.toNat := by omega
                simp only [hxy, hyx] at hab
                simp only [hyz, hzy] at hbc
                simp [hxz, hzx]
                exact ih ys zs (by simpa using hab) (by simpa using hbc)

instance : IsTotal String StrLe :=
  ⟨fun a b => charListLe_total a.data b.data⟩

instance : IsTrans String StrLe :=
  ⟨fun a b c hab hbc => charListLe_trans a.data b.data c.data hab hbc⟩

/-- Sort a list of strings the way Python's builtin sorted orders strings. -/
def sortedStrings (l : List String) : List String := List.insertionSort StrLe l

namespace DashApp

/-! ## Data model (src/app/db/models.py)

Only the columns and relationship collections the verified code reads are
embedded.  `is_active` flags are Booleans (non-null columns with Boolean
server defaults).  Timestamps are integers. -/

/-- A row of auth.reports (class Report in src/app/db/models.py). -/
structure Report where
  report_id : Nat
  report_code : String
  report_name : String
  route_path : Option String
  is_active : Bool
deriving DecidableEq

/-- A row of auth.role_reports (class RoleReport): the Role↔Report join row
carrying the can_view flag and grant metadata (assigned_at).  The source
guards the related report with an "is missing" check; the report_id foreign
key is non-null, so a loaded join row always carries its report and the
relationship is embedded as a plain field. -/
structure RoleReport where
  report_id : Nat
  can_view : Bool
  assigned_at : Int
  report : Report
deriving DecidableEq

/-- A row of auth.roles (class Role) with its permission map (JSONB dict of
resource name to action list, embedded as an association list) and both
report relationships: report_assignments (the RoleReport join rows) and the
legacy reports secondary relationship. -/
structure Role where
  role_id : Nat
  role_name : String
  is_active : Bool
  permissions : List (String × List String)
  report_assignments : List RoleReport
  reports : List Report
deriving DecidableEq

/-- A row of auth.groups (class Group) with its roles relationship. -/
structure Group where
  group_id : Nat
  group_name : String
  is_active : Bool
  roles : List Role
deriving DecidableEq

/-- A row of auth.users (class User) with its roles and groups
relationships. -/
structure User where
  user_id : Nat
  username : String
  is_active : Bool
  roles : List Role
  groups : List Group
deriving DecidableEq

/-- One entry of the reports list produced by the resolver: the literal dict
with keys code, name and route_path built in AuthService. -/
structure ReportEntry where
  code : String
  name : String
  route_path : Option String
deriving DecidableEq

/-- The dict AuthService builds for a report (both in _collect_reports and in
the admin escape hatch). -/
def entryOfReport (r : Report) : ReportEntry :=
  { code := r.report_code, name := r.report_name, route_path := r.route_path }

/-- Python dict keyed by report code, in insertion order. -/
abbrev EMap := List (String × ReportEntry)

/-- Python dict of resource name to action list, in insertion order. -/
abbrev PermMap := List (String × List String)

/-- dict.setdefault(k, v): keep the dict unchanged when the key is present,
otherwise append the new pair (CPython dicts preserve insertion order). -/
def mapSetdefault (m : EMap) (k : String) (v : ReportEntry) : EMap :=
  if (List.any m fun p => p.1 == k) then m else m ++ [(k, v)]

/-- Python set insertion: add the element only when it is new.  The Python
set is unordered; the resolver only reads it through membership tests and a
final sorted call, for which this duplicate-free list is equivalent. -/
def setInsert (l : List String) (x : String) : List String :=
  if x ∈ l then l else l ++ [x]

/-! ## AuthService.combine_permission_maps (src/app/auth/service.py:125-136) -/

/-- set.update(action for action in actions if action): insert every truthy
(non-empty) action that is not already present. -/
def unionActs (cur : List String) (acts : List String) : List String :=
  acts.foldl (fun c a => if a = "" then c else if a ∈ c then c else c ++ [a]) cur

/-- combined[resource].update(...): defaultdict(set) access creates the entry
when absent (even when every action is filtered out), then unions in the
truthy actions. -/
def dictUpdate (m : PermMap) (res : String) (acts : List String) : PermMap :=
  if (List.any m fun p => p.1 == res) then
    m.map fun p => if p.1 == res then (p.1, unionActs p.2 acts) else p
  else m ++ [(res, unionActs [] acts)]

/-- AuthService.combine_permission_maps: merge permission dicts into one
defaultdict(set), skipping falsy maps and falsy action collections, then sort
each resource's action set.  The Python signature also accepts missing maps
(skipped by the same falsiness test as the empty dict). -/
def combine_permission_maps (maps : List PermMap) : PermMap :=
  let combined := maps.foldl
    (fun acc mapping =>
      if List.isEmpty mapping then acc
      else mapping.foldl
        (fun acc2 p => if List.isEmpty p.2 then acc2 else dictUpdate acc2 p.1 p.2) acc)
    []
  combined.map fun p => (p.1, List.insertionSort StrLe p.2)

/-! ## AuthService._collect_reports (src/app/auth/service.py:185-217) -/

/-- The first loop of _collect_reports: walk the Role↔Report join rows,
skipping revoked (can_view false) grants and inactive reports, and setdefault
each remaining report into the code-keyed dict. -/
def collectFromAssignments (assignments : List RoleReport) (m : EMap) : EMap :=
  assignments.foldl
    (fun acc a =>
      if a.can_view = false then acc
      else if a.report.is_active = false then acc
      else mapSetdefault acc a.report.report_code (entryOfReport a.report))
    m

/-- The second loop of _collect_reports: the legacy fallback over the
role.reports secondary relationship, filtering only on report activity
(there is no can_view on this path). -/
def collectFromLegacy (reports : List Report) (m : EMap) : EMap :=
  reports.foldl
    (fun acc rep =>
      if rep.is_active = false then acc
      else mapSetdefault acc rep.report_code (entryOfReport rep))
    m

/-- AuthService._collect_reports: handled is set exactly when the role has at
least one Role↔Report join row; only in that case the legacy loop is skipped.
When the join-row list is empty its loop leaves the dict unchanged, so the
fallback starts from the incoming dict. -/
def collect_reports (role : Role) (m : EMap) : EMap :=
  if List.isEmpty role.report_assignments then collectFromLegacy role.reports m
  else collectFromAssignments role.report_assignments m

/-! ## AuthService._build_access_profile (src/app/auth/service.py:138-183) -/

/-- The loop state of _build_access_profile: the role-name set, the
group-name set, the ordered list of permission dicts to merge, and the
code-keyed report dict. -/
structure ResolveState where
  role_names : List String
  group_names : List String
  permission_sources : List PermMap
  report_map : EMap
deriving DecidableEq

/-- One iteration of either role loop in _build_access_profile: skip inactive
roles, otherwise record the role name, append the role's permission dict
(role.permissions or the empty dict, which the embedding represents the same
way), and collect its reports. -/
def addRole (st : ResolveState) (role : Role) : ResolveState :=
  if role.is_active = false then st
  else
    { st with
      role_names := setInsert st.role_names role.role_name
      permission_sources := st.permission_sources ++ [role.permissions]
      report_map := collect_reports role st.report_map }

/-- One iteration of the group loop: skip inactive groups, otherwise record
the group name and run the role loop over the group's roles. -/
def addGroup (st : ResolveState) (g : Group) : ResolveState :=
  if g.is_active = false then st
  else g.roles.foldl addRole { st with group_names := setInsert st.group_names g.group_name }

/-- The two collection loops of _build_access_profile, starting from empty
sets, an empty source list and an empty report dict. -/
def resolveState (u : User) : ResolveState :=
  u.groups.foldl addGroup (u.roles.foldl addRole ⟨[], [], [], []⟩)

/-- The resolved access tuple _build_access_profile returns (the roles,
groups, permissions and reports fields of AuthProfile). -/
structure ResolvedAccess where
  roleNames : List String
  groupNames : List String
  permissions : PermMap
  reports : List ReportEntry
deriving DecidableEq

/-- sorted(report_map.values(), key=(name or code)): the sort key falls back
to the code when the name is falsy (empty). -/
def reportKey (e : ReportEntry) : String :=
  if e.name = "" then e.code else e.name

/-- Ordering of report entries by their sort key. -/
def EntryLe (a b : ReportEntry) : Prop := strLeB (reportKey a) (reportKey b) = true

instance : DecidableRel EntryLe := fun a b =>
  inferInstanceAs (Decidable (strLeB (reportKey a) (reportKey b) = true))

/-- The admin escape hatch of _build_access_profile: when "admin" is among
the collected role names, every active report of the reports table is
setdefaulted into the report dict.  The systemReports parameter stands for
the auth.reports table the hatch queries through the live ORM session
(select(Report).where(Report.is_active.is_(True)) becomes a filter); the
session is live for the loaded user, so the query always runs. -/
def escapeHatchMap (u : User) (systemReports : List Report) : EMap :=
  if "admin" ∈ (resolveState u).role_names then
    (systemReports.filter fun r => r.is_active).foldl
      (fun acc rep => mapSetdefault acc rep.report_code (entryOfReport rep))
      (resolveState u).report_map
  else (resolveState u).report_map

/-- AuthService._build_access_profile: the collection loops, the permission
merge, the admin escape hatch, and the final sorting of the four outputs
(reports sorted by name-or-code key; the empty dict short-circuits to the
empty list, which coincides with sorting nothing). -/
def build_access_profile (u : User) (systemReports : List Report) : ResolvedAccess :=
  let st := resolveState u
  let permissions := combine_permission_maps st.permission_sources
  let rmap := escapeHatchMap u systemReports
  let reports :=
    if List.isEmpty rmap then []
    else List.insertionSort EntryLe (rmap.map fun p => p.2)
  { roleNames := sortedStrings st.role_names
    groupNames := sortedStrings st.group_names
    permissions := permissions
    reports := reports }

/-! ## Credential verifier: AuthService.hash_password
(src/app/auth/service.py:58-63).  The bcrypt salt generation and hash are
external primitives outside the verified core; the embedding keeps the length
guard (MAX_PASSWORD_BYTES = 72 UTF-8 bytes) and abstracts a successful hash
to the unit value. -/

/-- AuthService.hash_password: raise ValueError when the UTF-8 encoding of
the password exceeds 72 bytes, otherwise hash (success abstracted). -/
def hash_password (plain_password : String) : Except String Unit :=
  if plain_password.utf8ByteSize > 72 then
    Except.error "Password exceeds bcrypt 72-byte limit"
  else Except.ok ()

/-! ## Session store (src/app/auth/session.py)

A JSON-ish scalar type for session payload values, an auth.user_sessions row,
and the DatabaseSessionInterface operations.  The SQLAlchemy session becomes
a list of rows passed in and returned; datetime.now becomes an integer
parameter; uuid4 token generation becomes a fresh-token parameter. -/

/-- A scalar stored in the session_data JSONB payload. -/
inductive JVal where
  | nat (n : Nat)
  | str (s : String)
  | boolean (b : Bool)
deriving DecidableEq

/-- Python dict.get(k): the first binding of the key, if any (dicts have
unique keys). -/
def dataGet (d : List (String × JVal)) (k : String) : Option JVal :=
  (d.find? fun p => p.1 == k).map fun p => p.2

/-- A row of auth.user_sessions (class UserSession): user_id is a non-null
column, only ever written from a payload that carried it. -/
structure SessionRow where
  session_token : String
  user_id : JVal
  expires_at : Int
  is_active : Bool
  session_data : List (String × JVal)
  ip_address : Option String
  user_agent : Option String
deriving DecidableEq

/-- The in-memory DatabaseSession handle: its token (sid is always assigned
in the constructor), the new flag, and the dict payload. -/
structure SessionHandle where
  sid : String
  new : Bool
  data : List (String × JVal)
deriving DecidableEq

/-- The fresh anonymous session _create_session(new=True) builds, with the
generated token. -/
def freshHandle (tok : String) : SessionHandle :=
  { sid := tok, new := true, data := [] }

/-- select(UserSession).where(session_token == tok) with scalar_one_or_none:
the token column is unique, so the first match is the row. -/
def findRow (db : List SessionRow) (tok : String) : Option SessionRow :=
  db.find? fun r => r.session_token == tok

/-- Update the (unique) row holding a token with an ORM mutation f. -/
def updateRowTok (db : List SessionRow) (tok : String) (f : SessionRow → SessionRow) :
    List SessionRow :=
  db.map fun r => if r.session_token == tok then f r else r

/-- DatabaseSessionInterface.open_session: an absent or empty cookie yields a
fresh session; a token whose row is missing, inactive or expired yields a
fresh session and, when a stale row existed, tombstones it (inactive,
expires_at = now); otherwise the stored payload is loaded under the same
token.  cookieSid is the request cookie, freshTok the uuid4 token
_create_session would generate, now the current UTC time. -/
def open_session (db : List SessionRow) (cookieSid : Option String) (now : Int)
    (freshTok : String) : List SessionRow × SessionHandle :=
  match cookieSid with
  | none => (db, freshHandle freshTok)
  | some sid =>
    if sid = "" then (db, freshHandle freshTok)
    else
      match findRow db sid with
      | none => (db, freshHandle freshTok)
      | some record =>
        if record.is_active = false ∨ record.expires_at ≤ now then
          (updateRowTok db sid fun r => { r with is_active := false, expires_at := now },
           freshHandle freshTok)
        else
          (db, { sid := sid, new := false, data := record.session_data })

/-- The cookie side effect of save_session. -/
inductive CookieAction where
  | delete
  | set (sid : String) (expires : Int)
deriving DecidableEq

/-- DatabaseSessionInterface.save_session.  expires is the absolute UTC
expiry the method computes from the app lifetime, now the current time, ip
and ua the request client data.  The handle's sid is always assigned (the
constructor generates one), so the sid-is-missing regeneration branch cannot
fire and is omitted. -/
def save_session (db : List SessionRow) (h : SessionHandle) (now expires : Int)
    (ip ua : Option String) : List SessionRow × CookieAction :=
  if List.isEmpty h.data then
    -- `if not db_session`: the handle is falsy exactly when its dict is empty
    (if h.sid = "" then db
     else updateRowTok db h.sid fun r => { r with is_active := false, expires_at := now },
     CookieAction.delete)
  else
    match dataGet h.data "user_id" with
    | none =>
      (match findRow db h.sid with
       | none => db
       | some _ =>
         updateRowTok db h.sid fun r =>
           { r with is_active := false, expires_at := now, session_data := h.data,
                    ip_address := ip, user_agent := ua },
       CookieAction.set h.sid expires)
    | some uid =>
      (match findRow db h.sid with
       | none =>
         db ++ [{ session_token := h.sid, user_id := uid, expires_at := expires,
                  is_active := true, session_data := h.data,
                  ip_address := ip, user_agent := ua }]
       | some _ =>
         updateRowTok db h.sid fun r =>
           { r with session_data := h.data, expires_at := expires, is_active := true,
                    ip_address := ip, user_agent := ua, user_id := uid },
       CookieAction.set h.sid expires)

/-! ## Session lifecycle on login (src/app/ui/pages/login.py:75-106 plus the
flask request cycle): the request opens the session from the cookie,
process_login clears the session dict and fills it with the serialized
profile, and the response phase persists it through save_session.  The
returned string is the token bound to the profile (the one set_cookie
sends). -/

/-- One successful login exchange: open_session on the presented cookie, the
controller replacing the session payload with the profile dict, then
save_session. -/
def login_flow (db : List SessionRow) (cookieSid : Option String) (now : Int)
    (freshTok : String) (profileData : List (String × JVal)) (expires : Int)
    (ip ua : Option String) : List SessionRow × String :=
  let opened := open_session db cookieSid now freshTok
  let handle := { opened.2 with data := profileData }
  let saved := save_session opened.1 handle now expires ip ua
  (saved.1, handle.sid)

/-! ## AdminService (src/app/admin/service.py)

The relevant state is the users, roles and reports tables.  session.get
becomes a primary-key lookup; ORM identity (the membership and next(...)
probes compare loaded row objects, which the identity map makes unique per
primary key) becomes comparison on the primary-key column. -/

/-- The slice of the auth schema AdminService operates on. -/
structure AdminDB where
  users : List User
  roles : List Role
  reports : List Report
deriving DecidableEq

/-- session.get(User, user_id). -/
def getUser (db : AdminDB) (uid : Nat) : Option User :=
  db.users.find? fun u => u.user_id == uid

/-- session.get(Role, role_id). -/
def getRole (db : AdminDB) (rid : Nat) : Option Role :=
  db.roles.find? fun r => r.role_id == rid

/-- session.get(Report, report_id). -/
def getReport (db : AdminDB) (repid : Nat) : Option Report :=
  db.reports.find? fun r => r.report_id == repid

/-- Persist an ORM mutation of the (unique) user row with this id. -/
def updateUser (db : AdminDB) (uid : Nat) (f : User → User) : AdminDB :=
  { db with users := db.users.map fun u => if u.user_id == uid then f u else u }

/-- Persist an ORM mutation of the (unique) role row with this id. -/
def updateRole (db : AdminDB) (rid : Nat) (f : Role → Role) : AdminDB :=
  { db with roles := db.roles.map fun r => if r.role_id == rid then f r else r }

/-- The conditional append of assign_role_to_user: attach the role only when
it is not already in the user's roles (the membership test compares ORM
identities, i.e. primary keys, which the session identity map makes unique
per row). -/
def attachRole (role : Role) (u : User) : User :=
  if u.roles.any (fun r => r.role_id == role.role_id) then u
  else { u with roles := u.roles ++ [role] }

/-- AdminService.assign_role_to_user (src/app/admin/service.py:231-244):
look up user and role, and append the role to the user's roles only when it
is not already attached. -/
def assign_role_to_user (db : AdminDB) (uid rid : Nat) : Except String AdminDB :=
  match getUser db uid with
  | none => Except.error "User not found"
  | some _ =>
    match getRole db rid with
    | none => Except.error "Role not found"
    | some role => Except.ok (updateUser db uid (attachRole role))

/-- AdminService.assign_report_to_role (src/app/admin/service.py:261-279):
toggle can_view on the existing Role↔Report join row when one exists for the
report (next(...) finds it by report_id), otherwise append a new join row
(assigned_at takes the server default now). -/
def assign_report_to_role (db : AdminDB) (rid repid : Nat) (can_view : Bool) (now : Int) :
    Except String AdminDB :=
  match getRole db rid with
  | none => Except.error "Role not found"
  | some _ =>
    match getReport db repid with
    | none => Except.error "Report not found"
    | some report =>
      Except.ok (updateRole db rid fun role =>
        if role.report_assignments.any (fun l => l.report_id == repid) then
          { role with report_assignments := role.report_assignments.map fun l =>
              if l.report_id == repid then { l with can_view := can_view } else l }
        else
          { role with report_assignments := role.report_assignments ++
              [{ report_id := report.report_id, can_view := can_view,
                 assigned_at := now, report := report }] })

/-- AdminService.remove_report_from_role (src/app/admin/service.py:281-295):
find the Role↔Report join row by report_id (error when absent) and remove it
from the relationship collection, which the delete-orphan cascade turns into
a row delete. -/
def remove_report_from_role (db : AdminDB) (rid repid : Nat) : Except String AdminDB :=
  match getRole db rid with
  | none => Except.error "Role not found"
  | some role =>
    if role.report_assignments.any (fun l => l.report_id == repid) then
      Except.ok (updateRole db rid fun r =>
        { r with report_assignments := r.report_assignments.eraseP fun l => l.report_id == repid })
    else Except.error "Report assignment not found"

/-! ## Generic list lemmas for row updates and dict folds -/

/-- Updating the rows a predicate selects commutes with finding the first
such row, when the update preserves the predicate. -/
theorem find?_map_ite {α : Type} (l : List α) (p : α → Bool) (f : α → α) (a : α)
    (hf : ∀ x, p (f x) = p x) (h : l.find? p = some a) :
    (l.map fun x => if p x then f x else x).find? p = some (f a) := by
  induction l with
  | nil => simp at h
  | cons x xs ih =>
    by_cases hx : p x = true
    · rw [List.find?_cons_of_pos _ hx] at h
      cases h
      simp only [List.map_cons, if_pos hx]
      exact List.find?_cons_of_pos _ (by rw [hf]; exact hx)
    · rw [List.find?_cons_of_neg _ hx] at h
      simp only [List.map_cons, if_neg hx]
      rw [List.find?_cons_of_neg _ hx]
      exact ih h

/-- When no row matches, the selective update is the identity. -/
theorem map_ite_of_find?_none {α : Type} (l : List α) (p : α → Bool) (f : α → α)
    (h : l.find? p = none) :
    (l.map fun x => if p x then f x else x) = l := by
  induction l with
  | nil => rfl
  | cons x xs ih =>
    rw [List.find?_cons] at h
    by_cases hx : p x = true
    · simp [hx] at h
    · simp only [List.map_cons, if_neg hx]
      rw [ih (by simpa [hx] using h)]

/-- Entries already present survive a setdefault. -/
theorem mem_mapSetdefault_of_mem {m : EMap} {p : String × ReportEntry} (k : String)
    (v : ReportEntry) (h : p ∈ m) : p ∈ mapSetdefault m k v := by
  unfold mapSetdefault
  split
  · exact h
  · exact List.mem_append_left _ h

/-- Every entry of a setdefault result is an old entry or the inserted
pair. -/
theorem mem_of_mem_mapSetdefault {m : EMap} {p : String × ReportEntry} {k : String}
    {v : ReportEntry} (h : p ∈ mapSetdefault m k v) : p ∈ m ∨ p = (k, v) := by
  unfold mapSetdefault at h
  split at h
  · exact Or.inl h
  · rcases List.mem_append.mp h with h1 | h1
    · exact Or.inl h1
    · exact Or.inr (List.mem_singleton.mp h1)

/-- A key is present after a setdefault exactly when it was present before or
it is the key being defaulted. -/
theorem key_mem_mapSetdefault {m : EMap} {k k0 : String} {v : ReportEntry} :
    (∃ e, (k, e) ∈ mapSetdefault m k0 v) ↔ (∃ e, (k, e) ∈ m) ∨ k = k0 := by
  unfold mapSetdefault
  split
  · rename_i hany
    constructor
    · exact fun h => Or.inl h
    · rintro (h | rfl)
      · exact h
      · rcases List.any_eq_true.mp hany with ⟨q, hq, hqk⟩
        have hk : q.1 = k := by simpa using hqk
        exact ⟨q.2, by rw [← hk]; exact hq⟩
  · constructor
    · rintro ⟨e, he⟩
      rcases List.mem_append.mp he with h1 | h1
      · exact Or.inl ⟨e, h1⟩
      · have h2 := List.mem_singleton.mp h1
        exact Or.inr (congrArg Prod.fst h2)
    · rintro (⟨e, he⟩ | rfl)
      · exact ⟨e, List.mem_append_left _ he⟩
      · exact ⟨v, List.mem_append_right _ (List.mem_singleton.mpr rfl)⟩

/-- The common shape of the report-collection loops: setdefault the key and
value of every element that passes the guard. -/
def foldGuard {α : Type} (g : α → Bool) (key : α → String) (val : α → ReportEntry)
    (l : List α) (m : EMap) : EMap :=
  l.foldl (fun acc x => if g x then mapSetdefault acc (key x) (val x) else acc) m

/-- Unfolding one step of a guarded collection fold. -/
theorem foldGuard_cons {α : Type} (g : α → Bool) (key : α → String)
    (val : α → ReportEntry) (x : α) (xs : List α) (m : EMap) :
    foldGuard g key val (x :: xs) m =
      foldGuard g key val xs (if g x = true then mapSetdefault m (key x) (val x) else m) := rfl

/-- Entries already present survive a guarded collection fold. -/
theorem mem_foldGuard_of_mem {α : Type} (g : α → Bool) (key : α → String)
    (val : α → ReportEntry) (l : List α) {m : EMap} {p : String × ReportEntry}
    (h : p ∈ m) : p ∈ foldGuard g key val l m := by
  induction l generalizing m with
  | nil => exact h
  | cons x xs ih =>
    rw [foldGuard_cons]
    apply ih
    split
    · exact mem_mapSetdefault_of_mem _ _ h
    · exact h

/-- Every entry of a guarded collection fold is an old entry or the key-value
pair of some element that passed the guard. -/
theorem mem_of_mem_foldGuard {α : Type} {g : α → Bool} {key : α → String}
    {val : α → ReportEntry} {l : List α} {m : EMap} {p : String × ReportEntry}
    (h : p ∈ foldGuard g key val l m) :
    p ∈ m ∨ ∃ x ∈ l, g x = true ∧ p = (key x, val x) := by
  induction l generalizing m with
  | nil => exact Or.inl h
  | cons x xs ih =>
    rw [foldGuard_cons] at h
    rcases ih h with h1 | ⟨y, hy, hgy, hp⟩
    · by_cases hg : g x = true
      · rw [if_pos hg] at h1
        rcases mem_of_mem_mapSetdefault h1 with h2 | h2
        · exact Or.inl h2
        · exact Or.inr ⟨x, List.mem_cons_self x xs, hg, h2⟩
      · rw [if_neg hg] at h1
        exact Or.inl h1
    · exact Or.inr ⟨y, List.mem_cons_of_mem _ hy, hgy, hp⟩

/-- Key presence after a guarded collection fold: the key was present before,
or some element passing the guard carries it. -/
theorem key_mem_foldGuard {α : Type} (g : α → Bool) (key : α → String)
    (val : α → ReportEntry) (l : List α) (m : EMap) (k : String) :
    (∃ e, (k, e) ∈ foldGuard g key val l m) ↔
      (∃ e, (k, e) ∈ m) ∨ ∃ x ∈ l, g x = true ∧ key x = k := by
  induction l generalizing m with
  | nil => simp [foldGuard]
  | cons x xs ih =>
    rw [foldGuard_cons, ih]
    by_cases hg : g x = true
    · rw [if_pos hg, key_mem_mapSetdefault]
      constructor
      · rintro ((h | rfl) | h)
        · exact Or.inl h
        · exact Or.inr ⟨x, List.mem_cons_self x xs, hg, rfl⟩
        · rcases h with ⟨y, hy, hgy, hk⟩
          exact Or.inr ⟨y, List.mem_cons_of_mem _ hy, hgy, hk⟩
      · rintro (h | ⟨y, hy, hgy, hk⟩)
        · exact Or.inl (Or.inl h)
        · rcases List.mem_cons.mp hy with rfl | hy2
          · exact Or.inl (Or.inr hk.symm)
          · exact Or.inr ⟨y, hy2, hgy, hk⟩
    · rw [if_neg hg]
      constructor
      · rintro (h | ⟨y, hy, hgy, hk⟩)
        · exact Or.inl h
        · exact Or.inr ⟨y, List.mem_cons_of_mem _ hy, hgy, hk⟩
      · rintro (h | ⟨y, hy, hgy, hk⟩)
        · exact Or.inl h
        · rcases List.mem_cons.mp hy with rfl | hy2
          · exact absurd hgy hg
          · exact Or.inr ⟨y, hy2, hgy, hk⟩

/-- Membership in a Python set after insertion. -/
theorem mem_setInsert {l : List String} {x a : String} :
    a ∈ setInsert l x ↔ a ∈ l ∨ a = x := by
  unfold setInsert
  split
  · rename_i hx
    constructor
    · exact fun h => Or.inl h
    · rintro (h | rfl)
      · exact h
      · exact hx
  · simp [List.mem_append]

/-- Python set insertion keeps the representation duplicate-free. -/
theorem nodup_setInsert {l : List String} (x : String) (h : l.Nodup) :
    (setInsert l x).Nodup := by
  unfold setInsert
  split
  · exact h
  · rename_i hx
    simpa [List.nodup_append, hx] using h

/-! ## Characterizations of the resolver loops -/

/-- The reports reachable from one role: those behind its Role↔Report join
rows plus its legacy secondary collection. -/
def roleSourceReports (r : Role) : List Report :=
  (r.report_assignments.map fun a => a.report) ++ r.reports

/-- The reports reachable from a user's direct roles and group roles. -/
def userSourceReports (u : User) : List Report :=
  (u.roles.flatMap roleSourceReports) ++
    u.groups.flatMap fun g => g.roles.flatMap roleSourceReports

/-- Every report object the resolver can put into its report dict for a given
user: the reachable grant/legacy reports plus the reports table the admin
escape hatch queries. -/
def allSourceReports (u : User) (systemReports : List Report) : List Report :=
  userSourceReports u ++ systemReports

/-- The join-row loop of _collect_reports in guarded-fold form. -/
theorem collectFromAssignments_eq_foldGuard (assignments : List RoleReport) (m : EMap) :
    collectFromAssignments assignments m =
      foldGuard (fun a => a.can_view && a.report.is_active)
        (fun a => a.report.report_code) (fun a => entryOfReport a.report) assignments m := by
  unfold collectFromAssignments foldGuard
  apply List.foldl_ext
  intro acc a _
  cases hcv : a.can_view <;> cases hia : a.report.is_active <;> simp [hcv, hia]

/-- The legacy loop of _collect_reports in guarded-fold form. -/
theorem collectFromLegacy_eq_foldGuard (reports : List Report) (m : EMap) :
    collectFromLegacy reports m =
      foldGuard (fun r => r.is_active) (fun r => r.report_code) entryOfReport reports m := by
  unfold collectFromLegacy foldGuard
  apply List.foldl_ext
  intro acc rep _
  cases hia : rep.is_active <;> simp [hia]

/-- Every entry _collect_reports adds comes from a report reachable from the
role, keyed by its code and carrying its entry. -/
theorem mem_of_mem_collect_reports {role : Role} {m : EMap} {p : String × ReportEntry}
    (h : p ∈ collect_reports role m) :
    p ∈ m ∨ ∃ rep ∈ roleSourceReports role, p = (rep.report_code, entryOfReport rep) := by
  unfold collect_reports at h
  split at h
  · rw [collectFromLegacy_eq_foldGuard] at h
    rcases mem_of_mem_foldGuard h with h1 | ⟨rep, hrep, _, hp⟩
    · exact Or.inl h1
    · exact Or.inr ⟨rep, List.mem_append_right _ hrep, hp⟩
  · rw [collectFromAssignments_eq_foldGuard] at h
    rcases mem_of_mem_foldGuard h with h1 | ⟨a, ha, _, hp⟩
    · exact Or.inl h1
    · exact Or.inr ⟨a.report, List.mem_append_left _ (List.mem_map_of_mem _ ha), hp⟩

/-- The role loop never touches the group-name set. -/
theorem foldl_addRole_group_names (roles : List Role) (st : ResolveState) :
    (roles.foldl addRole st).group_names = st.group_names := by
  induction roles generalizing st with
  | nil => rfl
  | cons r rs ih =>
    rw [List.foldl_cons, ih]
    unfold addRole
    split <;> rfl

/-- Membership in the role-name set after the role loop: previously present,
or the name of an active role of the list. -/
theorem mem_foldl_addRole_role_names (roles : List Role) (st : ResolveState) (n : String) :
    n ∈ (roles.foldl addRole st).role_names ↔
      n ∈ st.role_names ∨ ∃ r ∈ roles, r.is_active = true ∧ r.role_name = n := by
  induction roles generalizing st with
  | nil => simp
  | cons r rs ih =>
    rw [List.foldl_cons, ih]
    unfold addRole
    by_cases hr : r.is_active = false
    · rw [if_pos hr]
      constructor
      · rintro (h | h)
        · exact Or.inl h
        · exact Or.inr (by rcases h with ⟨x, hx, hax, hn⟩; exact ⟨x, List.mem_cons_of_mem _ hx, hax, hn⟩)
      · rintro (h | ⟨x, hx, hax, hn⟩)
        · exact Or.inl h
        · rcases List.mem_cons.mp hx with rfl | hx2
          · rw [hr] at hax; cases hax
          · exact Or.inr ⟨x, hx2, hax, hn⟩
    · rw [if_neg hr]
      have hact : r.is_active = true := by revert hr; cases r.is_active <;> simp
      simp only [mem_setInsert]
      constructor
      · rintro ((h | rfl) | ⟨x, hx, hax, hn⟩)
        · exact Or.inl h
        · exact Or.inr ⟨r, List.mem_cons_self r rs, hact, rfl⟩
        · exact Or.inr ⟨x, List.mem_cons_of_mem _ hx, hax, hn⟩
      · rintro (h | ⟨x, hx, hax, hn⟩)
        · exact Or.inl (Or.inl h)
        · rcases List.mem_cons.mp hx with rfl | hx2
          · exact Or.inl (Or.inr hn.symm)
          · exact Or.inr ⟨x, hx2, hax, hn⟩

/-- Membership in the role-name set after the group loop: previously present,
or the name of an active role of an active group. -/
theorem mem_foldl_addGroup_role_names (groups : List Group) (st : ResolveState) (n : String) :
    n ∈ (groups.foldl addGroup st).role_names ↔
      n ∈ st.role_names ∨
        ∃ g ∈ groups, g.is_active = true ∧ ∃ r ∈ g.roles, r.is_active = true ∧ r.role_name = n := by
  induction groups generalizing st with
  | nil => simp
  | cons g gs ih =>
    rw [List.foldl_cons, ih]
    unfold addGroup
    by_cases hg : g.is_active = false
    · rw [if_pos hg]
      constructor
      · rintro (h | ⟨x, hx, hax, hr⟩)
        · exact Or.inl h
        · exact Or.inr ⟨x, List.mem_cons_of_mem _ hx, hax, hr⟩
      · rintro (h | ⟨x, hx, hax, hr⟩)
        · exact Or.inl h
        · rcases List.mem_cons.mp hx with rfl | hx2
          · rw [hg] at hax; cases hax
          · exact Or.inr ⟨x, hx2, hax, hr⟩
    · rw [if_neg hg]
      have hact : g.is_active = true := by revert hg; cases g.is_active <;> simp
      rw [mem_foldl_addRole_role_names]
      constructor
      · rintro ((h | ⟨r, hr, har, hn⟩) | ⟨x, hx, hax, hr⟩)
        · exact Or.inl h
        · exact Or.inr ⟨g, List.mem_cons_self g gs, hact, r, hr, har, hn⟩
        · exact Or.inr ⟨x, List.mem_cons_of_mem _ hx, hax, hr⟩
      · rintro (h | ⟨x, hx, hax, r, hr, har, hn⟩)
        · exact Or.inl (Or.inl h)
        · rcases List.mem_cons.mp hx with rfl | hx2
          · exact Or.inl (Or.inr ⟨r, hr, har, hn⟩)
          · exact Or.inr ⟨x, hx2, hax, r, hr, har, hn⟩

/-- Membership in the resolved role-name set (before sorting). -/
theorem mem_resolveState_role_names (u : User) (n : String) :
    n ∈ (resolveState u).role_names ↔
      (∃ r ∈ u.roles, r.is_active = true ∧ r.role_name = n) ∨
        ∃ g ∈ u.groups, g.is_active = true ∧ ∃ r ∈ g.roles, r.is_active = true ∧ r.role_name = n := by
  unfold resolveState
  rw [mem_foldl_addGroup_role_names, mem_foldl_addRole_role_names]
  simp

/-- The permission dicts appended by the role loop are exactly those of the
active roles, in order. -/
theorem foldl_addRole_permission_sources (roles : List Role) (st : ResolveState) :
    (roles.foldl addRole st).permission_sources =
      st.permission_sources ++ (roles.filter fun r => r.is_active).map fun r => r.permissions := by
  induction roles generalizing st with
  | nil => simp
  | cons r rs ih =>
    rw [List.foldl_cons, ih]
    unfold addRole
    by_cases hr : r.is_active = false
    · rw [if_pos hr]
      simp [List.filter_cons, hr]
    · have hact : r.is_active = true := by revert hr; cases r.is_active <;> simp
      rw [if_neg hr]
      simp [List.filter_cons, hact]

/-- The permission dicts after the group loop: the direct ones, then for each
active group the dicts of its active roles, in order. -/
theorem foldl_addGroup_permission_sources (groups : List Group) (st : ResolveState) :
    (groups.foldl addGroup st).permission_sources =
      st.permission_sources ++ (groups.filter fun g => g.is_active).flatMap
        (fun g => (g.roles.filter fun r => r.is_active).map fun r => r.permissions) := by
  induction groups generalizing st with
  | nil => simp
  | cons g gs ih =>
    rw [List.foldl_cons, ih]
    unfold addGroup
    by_cases hg : g.is_active = false
    · rw [if_pos hg]
      simp [List.filter_cons, hg]
    · have hact : g.is_active = true := by revert hg; cases g.is_active <;> simp
      rw [if_neg hg, foldl_addRole_permission_sources]
      simp [List.filter_cons, hact]

/-- The permission sources the resolver merges: exactly the permission dicts
of the active direct roles followed by those of the active roles of the
active groups. -/
theorem resolveState_permission_sources (u : User) :
    (resolveState u).permission_sources =
      ((u.roles.filter fun r => r.is_active).map fun r => r.permissions) ++
        (u.groups.filter fun g => g.is_active).flatMap
          (fun g => (g.roles.filter fun r => r.is_active).map fun r => r.permissions) := by
  unfold resolveState
  rw [foldl_addGroup_permission_sources, foldl_addRole_permission_sources]
  simp

/-- The role loop keeps the role-name set duplicate-free. -/
theorem nodup_foldl_addRole_role_names (roles : List Role) (st : ResolveState)
    (h : st.role_names.Nodup) : (roles.foldl addRole st).role_names.Nodup := by
  induction roles generalizing st with
  | nil => exact h
  | cons r rs ih =>
    rw [List.foldl_cons]
    apply ih
    unfold addRole
    split
    · exact h
    · exact nodup_setInsert _ h

/-- The group loop keeps the role-name set duplicate-free. -/
theorem nodup_foldl_addGroup_role_names (groups : List Group) (st : ResolveState)
    (h : st.role_names.Nodup) : (groups.foldl addGroup st).role_names.Nodup := by
  induction groups generalizing st with
  | nil => exact h
  | cons g gs ih =>
    rw [List.foldl_cons]
    apply ih
    unfold addGroup
    split
    · exact h
    · exact nodup_foldl_addRole_role_names _ _ h

/-- The resolved role-name set is duplicate-free. -/
theorem nodup_resolveState_role_names (u : User) : (resolveState u).role_names.Nodup := by
  unfold resolveState
  exact nodup_foldl_addGroup_role_names _ _ (nodup_foldl_addRole_role_names _ _ List.nodup_nil)

/-- Every entry of the report dict after the role loop is a previous entry or
comes from a report reachable from one of the roles. -/
theorem mem_report_map_foldl_addRole {roles : List Role} {st : ResolveState}
    {p : String × ReportEntry} (h : p ∈ (roles.foldl addRole st).report_map) :
    p ∈ st.report_map ∨
      ∃ r ∈ roles, ∃ rep ∈ roleSourceReports r, p = (rep.report_code, entryOfReport rep) := by
  induction roles generalizing st with
  | nil => exact Or.inl h
  | cons r rs ih =>
    rw [List.foldl_cons] at h
    rcases ih h with h1 | ⟨x, hx, rep, hrep, hp⟩
    · unfold addRole at h1
      split at h1
      · exact Or.inl h1
      · rcases mem_of_mem_collect_reports h1 with h2 | ⟨rep, hrep, hp⟩
        · exact Or.inl h2
        · exact Or.inr ⟨r, List.mem_cons_self r rs, rep, hrep, hp⟩
    · exact Or.inr ⟨x, List.mem_cons_of_mem _ hx, rep, hrep, hp⟩

/-- Every entry of the report dict after the group loop is a previous entry
or comes from a report reachable from a group role. -/
theorem mem_report_map_foldl_addGroup {groups : List Group} {st : ResolveState}
    {p : String × ReportEntry} (h : p ∈ (groups.foldl addGroup st).report_map) :
    p ∈ st.report_map ∨
      ∃ g ∈ groups, ∃ r ∈ g.roles, ∃ rep ∈ roleSourceReports r,
        p = (rep.report_code, entryOfReport rep) := by
  induction groups generalizing st with
  | nil => exact Or.inl h
  | cons g gs ih =>
    rw [List.foldl_cons] at h
    rcases ih h with h1 | ⟨x, hx, r, hr, rep, hrep, hp⟩
    · unfold addGroup at h1
      split at h1
      · exact Or.inl h1
      · rcases mem_report_map_foldl_addRole h1 with h2 | ⟨r, hr, rep, hrep, hp⟩
        · exact Or.inl h2
        · exact Or.inr ⟨g, List.mem_cons_self g gs, r, hr, rep, hrep, hp⟩
    · exact Or.inr ⟨x, List.mem_cons_of_mem _ hx, r, hr, rep, hrep, hp⟩

/-- Every entry of the resolved report dict is keyed by the code of a report
reachable from the user and carries that report's entry. -/
theorem mem_report_map_resolveState {u : User} {p : String × ReportEntry}
    (h : p ∈ (resolveState u).report_map) :
    ∃ rep ∈ userSourceReports u, p = (rep.report_code, entryOfReport rep) := by
  unfold resolveState at h
  rcases mem_report_map_foldl_addGroup h with h1 | ⟨g, hg, r, hr, rep, hrep, hp⟩
  · rcases mem_report_map_foldl_addRole h1 with h2 | ⟨r, hr, rep, hrep, hp⟩
    · cases h2
    · exact ⟨rep, List.mem_append_left _ (List.mem_flatMap_of_mem hr hrep), hp⟩
  · exact ⟨rep, List.mem_append_right _
      (List.mem_flatMap_of_mem hg (List.mem_flatMap_of_mem hr hrep)), hp⟩

/-! ## Characterization of combine_permission_maps -/

/-- An action is granted on a resource by a permission dict. -/
def memPerm (m : PermMap) (r a : String) : Prop := ∃ acts, (r, acts) ∈ m ∧ a ∈ acts

/-- Membership after a set.update with the truthiness filter. -/
theorem mem_unionActs {cur acts : List String} {a : String} :
    a ∈ unionActs cur acts ↔ a ∈ cur ∨ (a ≠ "" ∧ a ∈ acts) := by
  induction acts generalizing cur with
  | nil => simp [unionActs]
  | cons x xs ih =>
    unfold unionActs at ih ⊢
    rw [List.foldl_cons]
    by_cases hx : x = ""
    · rw [if_pos hx, ih]
      constructor
      · rintro (h | ⟨hne, hmem⟩)
        · exact Or.inl h
        · exact Or.inr ⟨hne, List.mem_cons_of_mem _ hmem⟩
      · rintro (h | ⟨hne, hmem⟩)
        · exact Or.inl h
        · rcases List.mem_cons.mp hmem with rfl | h2
          · exact absurd hx hne
          · exact Or.inr ⟨hne, h2⟩
    · rw [if_neg hx]
      by_cases hxc : x ∈ cur
      · rw [if_pos hxc, ih]
        constructor
        · rintro (h | ⟨hne, hmem⟩)
          · exact Or.inl h
          · exact Or.inr ⟨hne, List.mem_cons_of_mem _ hmem⟩
        · rintro (h | ⟨hne, hmem⟩)
          · exact Or.inl h
          · rcases List.mem_cons.mp hmem with rfl | h2
            · exact Or.inl hxc
            · exact Or.inr ⟨hne, h2⟩
      · rw [if_neg hxc, ih]
        simp only [List.mem_append, List.mem_singleton]
        constructor
        · rintro ((h | rfl) | ⟨hne, hmem⟩)
          · exact Or.inl h
          · exact Or.inr ⟨hx, List.mem_cons_self _ _⟩
          · exact Or.inr ⟨hne, List.mem_cons_of_mem _ hmem⟩
        · rintro (h | ⟨hne, hmem⟩)
          · exact Or.inl (Or.inl h)
          · rcases List.mem_cons.mp hmem with rfl | h2
            · exact Or.inl (Or.inr rfl)
            · exact Or.inr ⟨hne, h2⟩

/-- Membership after the defaultdict in-place union over all entries of a
resource key. -/
theorem memPerm_map_union {m : PermMap} {res : String} {acts : List String}
    {r a : String} :
    memPerm (m.map fun p => if p.1 == res then (p.1, unionActs p.2 acts) else p) r a ↔
      memPerm m r a ∨ (r = res ∧ a ≠ "" ∧ a ∈ acts ∧ ∃ acts0, (res, acts0) ∈ m) := by
  induction m with
  | nil => simp [memPerm]
  | cons p ps ih =>
    unfold memPerm at ih ⊢
    simp only [List.map_cons, List.mem_cons]
    by_cases hp : p.1 = res
    · rw [if_pos (beq_iff_eq.mpr hp)]
      constructor
      · rintro ⟨acts1, h1 | h1, ha⟩
        · have hkey : r = p.1 := by
            have := congrArg Prod.fst h1
            exact this
          have hval : acts1 = unionActs p.2 acts := congrArg Prod.snd h1
          subst hval
          rcases mem_unionActs.mp ha with h2 | ⟨hne, h2⟩
          · exact Or.inl ⟨p.2, Or.inl (by rw [hkey]), h2⟩
          · exact Or.inr ⟨by rw [hkey, hp], hne, h2, p.2, by rw [← hp]; exact Or.inl rfl⟩
        · rcases ih.mp ⟨acts1, h1, ha⟩ with h2 | ⟨hre, hne, hacts, acts0, h0⟩
          · rcases h2 with ⟨acts2, h2, ha2⟩
            exact Or.inl ⟨acts2, Or.inr h2, ha2⟩
          · exact Or.inr ⟨hre, hne, hacts, acts0, Or.inr h0⟩
      · rintro (⟨acts1, h1 | h1, ha⟩ | ⟨hre, hne, hacts, acts0, h0 | h0⟩)
        · have hkey : r = p.1 := congrArg Prod.fst h1
          have hval : acts1 = p.2 := congrArg Prod.snd h1
          subst hval
          exact ⟨unionActs p.2 acts, Or.inl (by rw [hkey]), mem_unionActs.mpr (Or.inl ha)⟩
        · rcases ih.mpr (Or.inl ⟨acts1, h1, ha⟩) with ⟨acts2, h2, ha2⟩
          exact ⟨acts2, Or.inr h2, ha2⟩
        · exact ⟨unionActs p.2 acts, Or.inl (by rw [hre, hp]),
            mem_unionActs.mpr (Or.inr ⟨hne, hacts⟩)⟩
        · rcases ih.mpr (Or.inr ⟨hre, hne, hacts, acts0, h0⟩) with ⟨acts2, h2, ha2⟩
          exact ⟨acts2, Or.inr h2, ha2⟩
    · rw [if_neg (by simpa using hp)]
      constructor
      · rintro ⟨acts1, h1 | h1, ha⟩
        · exact Or.inl ⟨acts1, Or.inl h1, ha⟩
        · rcases ih.mp ⟨acts1, h1, ha⟩ with ⟨acts2, h2, ha2⟩ | ⟨hre, hne, hacts, acts0, h0⟩
          · exact Or.inl ⟨acts2, Or.inr h2, ha2⟩
          · exact Or.inr ⟨hre, hne, hacts, acts0, Or.inr h0⟩
      · rintro (⟨acts1, h1 | h1, ha⟩ | ⟨hre, hne, hacts, acts0, h0 | h0⟩)
        · exact ⟨acts1, Or.inl h1, ha⟩
        · rcases ih.mpr (Or.inl ⟨acts1, h1, ha⟩) with ⟨acts2, h2, ha2⟩
          exact ⟨acts2, Or.inr h2, ha2⟩
        · exact absurd (congrArg Prod.fst h0).symm hp
        · rcases ih.mpr (Or.inr ⟨hre, hne, hacts, acts0, h0⟩) with ⟨acts2, h2, ha2⟩
          exact ⟨acts2, Or.inr h2, ha2⟩

/-- Membership after one combined[resource].update step. -/
theorem memPerm_dictUpdate {m : PermMap} {res : String} {acts : List String} {r a : String} :
    memPerm (dictUpdate m res acts) r a ↔
      memPerm m r a ∨ (r = res ∧ a ≠ "" ∧ a ∈ acts) := by
  unfold dictUpdate
  split
  · rename_i hany
    rw [memPerm_map_union]
    rcases List.any_eq_true.mp hany with ⟨q, hq, hqk⟩
    have hqres : q.1 = res := by simpa using hqk
    have hex : ∃ acts0, (res, acts0) ∈ m := ⟨q.2, by rw [← hqres]; exact hq⟩
    constructor
    · rintro (h | ⟨hre, hne, hacts, _⟩)
      · exact Or.inl h
      · exact Or.inr ⟨hre, hne, hacts⟩
    · rintro (h | ⟨hre, hne, hacts⟩)
      · exact Or.inl h
      · exact Or.inr ⟨hre, hne, hacts, hex⟩
  · unfold memPerm
    constructor
    · rintro ⟨acts1, h1, ha⟩
      rcases List.mem_append.mp h1 with h2 | h2
      · exact Or.inl ⟨acts1, h2, ha⟩
      · have h3 := List.mem_singleton.mp h2
        have hkey : r = res := congrArg Prod.fst h3
        have hval : acts1 = unionActs [] acts := congrArg Prod.snd h3
        subst hval
        rcases mem_unionActs.mp ha with h4 | ⟨hne, h4⟩
        · cases h4
        · exact Or.inr ⟨hkey, hne, h4⟩
    · rintro (⟨acts1, h1, ha⟩ | ⟨hre, hne, hacts⟩)
      · exact ⟨acts1, List.mem_append_left _ h1, ha⟩
      · exact ⟨unionActs [] acts, by rw [hre]; exact List.mem_append_right _ (List.mem_singleton.mpr rfl),
          mem_unionActs.mpr (Or.inr ⟨hne, hacts⟩)⟩

/-- Membership after merging one permission dict into the accumulator. -/
theorem memPerm_foldl_mapping (mapping : PermMap) (acc : PermMap) (r a : String) :
    memPerm (mapping.foldl
        (fun acc2 p => if List.isEmpty p.2 then acc2 else dictUpdate acc2 p.1 p.2) acc) r a ↔
      memPerm acc r a ∨ (a ≠ "" ∧ memPerm mapping r a) := by
  induction mapping generalizing acc with
  | nil => simp [memPerm]
  | cons p ps ih =>
    rw [List.foldl_cons, ih]
    by_cases hp : List.isEmpty p.2
    · rw [if_pos hp]
      have hpnil : p.2 = [] := List.isEmpty_iff.mp hp
      unfold memPerm
      constructor
      · rintro (h | ⟨hne, acts1, h1, ha⟩)
        · exact Or.inl h
        · exact Or.inr ⟨hne, acts1, List.mem_cons_of_mem _ h1, ha⟩
      · rintro (h | ⟨hne, acts1, h1, ha⟩)
        · exact Or.inl h
        · rcases List.mem_cons.mp h1 with h2 | h2
          · have hval : acts1 = p.2 := congrArg Prod.snd h2
            rw [hval, hpnil] at ha
            cases ha
          · exact Or.inr ⟨hne, acts1, h2, ha⟩
    · rw [if_neg hp, memPerm_dictUpdate]
      unfold memPerm
      constructor
      · rintro ((h | ⟨hre, hne, hacts⟩) | ⟨hne, acts1, h1, ha⟩)
        · exact Or.inl h
        · exact Or.inr ⟨hne, p.2, by rw [hre]; exact List.mem_cons_self _ _, hacts⟩
        · exact Or.inr ⟨hne, acts1, List.mem_cons_of_mem _ h1, ha⟩
      · rintro (h | ⟨hne, acts1, h1, ha⟩)
        · exact Or.inl (Or.inl h)
        · rcases List.mem_cons.mp h1 with h2 | h2
          · have hkey : r = p.1 := congrArg Prod.fst h2
            have hval : acts1 = p.2 := congrArg Prod.snd h2
            exact Or.inl (Or.inr ⟨hkey, hne, hval ▸ ha⟩)
          · exact Or.inr ⟨hne, acts1, h2, ha⟩

/-- Membership after merging a list of permission dicts. -/
theorem memPerm_foldl_maps (maps : List PermMap) (acc : PermMap) (r a : String) :
    memPerm (maps.foldl
        (fun acc mapping =>
          if List.isEmpty mapping then acc
          else mapping.foldl
            (fun acc2 p => if List.isEmpty p.2 then acc2 else dictUpdate acc2 p.1 p.2) acc)
        acc) r a ↔
      memPerm acc r a ∨ (a ≠ "" ∧ ∃ mp ∈ maps, memPerm mp r a) := by
  induction maps generalizing acc with
  | nil => simp
  | cons mp mps ih =>
    rw [List.foldl_cons, ih]
    by_cases hmp : List.isEmpty mp
    · rw [if_pos hmp]
      have hnil : mp = [] := List.isEmpty_iff.mp hmp
      constructor
      · rintro (h | ⟨hne, mp1, h1, ha⟩)
        · exact Or.inl h
        · exact Or.inr ⟨hne, mp1, List.mem_cons_of_mem _ h1, ha⟩
      · rintro (h | ⟨hne, mp1, h1, ha⟩)
        · exact Or.inl h
        · rcases List.mem_cons.mp h1 with rfl | h2
          · rcases ha with ⟨acts1, h3, _⟩
            rw [hnil] at h3
            cases h3
          · exact Or.inr ⟨hne, mp1, h2, ha⟩
    · rw [if_neg hmp, memPerm_foldl_mapping]
      constructor
      · rintro ((h | ⟨hne, hmem⟩) | ⟨hne, mp1, h1, ha⟩)
        · exact Or.inl h
        · exact Or.inr ⟨hne, mp, List.mem_cons_self _ _, hmem⟩
        · exact Or.inr ⟨hne, mp1, List.mem_cons_of_mem _ h1, ha⟩
      · rintro (h | ⟨hne, mp1, h1, ha⟩)
        · exact Or.inl (Or.inl h)
        · rcases List.mem_cons.mp h1 with rfl | h2
          · exact Or.inl (Or.inr ⟨hne, ha⟩)
          · exact Or.inr ⟨hne, mp1, h2, ha⟩

/-- Sorting each value list preserves granted actions. -/
theorem memPerm_map_sort {m : PermMap} {r a : String} :
    memPerm (m.map fun p => (p.1, List.insertionSort StrLe p.2)) r a ↔ memPerm m r a := by
  unfold memPerm
  constructor
  · rintro ⟨acts1, h1, ha⟩
    rcases List.mem_map.mp h1 with ⟨p, hp, hpe⟩
    have hkey : p.1 = r := congrArg Prod.fst hpe
    have hval : List.insertionSort StrLe p.2 = acts1 := congrArg Prod.snd hpe
    refine ⟨p.2, by rw [← hkey]; exact hp, ?_⟩
    have := (List.perm_insertionSort StrLe p.2).mem_iff (a := a)
    rw [hval] at this
    exact this.mp ha
  · rintro ⟨acts1, h1, ha⟩
    refine ⟨List.insertionSort StrLe acts1, List.mem_map.mpr ⟨(r, acts1), h1, rfl⟩, ?_⟩
    exact ((List.perm_insertionSort StrLe acts1).mem_iff).mpr ha

/-- Granted actions of the merged permission map: exactly the non-empty
actions granted by some input dict on that resource. -/
theorem memPerm_combine (maps : List PermMap) (r a : String) :
    memPerm (combine_permission_maps maps) r a ↔
      a ≠ "" ∧ ∃ mp ∈ maps, memPerm mp r a := by
  unfold combine_permission_maps
  rw [memPerm_map_sort, memPerm_foldl_maps]
  simp [memPerm]

/-- Every value list of the merged permission map is sorted in the Python
string order. -/
theorem sorted_combine (maps : List PermMap) :
    ∀ p ∈ combine_permission_maps maps, List.Sorted StrLe p.2 := by
  unfold combine_permission_maps
  intro p hp
  rcases List.mem_map.mp hp with ⟨q, _, hqe⟩
  have hval : List.insertionSort StrLe q.2 = p.2 := congrArg Prod.snd hqe
  rw [← hval]
  exact List.sorted_insertionSort StrLe q.2

/-! ## Claim theorems -/

/-- C7: hashing a password succeeds exactly when its UTF-8 byte length is at
most 72 bytes; with 73 bytes or more it raises the password-too-long error
instead (a hard input constraint, not truncation). -/
theorem C7_hash_password_length_boundary (p : String) :
    (hash_password p = Except.ok () ↔ p.utf8ByteSize ≤ 72) ∧
      (hash_password p = Except.error "Password exceeds bcrypt 72-byte limit" ↔
        72 < p.utf8ByteSize) := by
  unfold hash_password
  by_cases h : p.utf8ByteSize > 72
  · rw [if_pos h]
    constructor
    · constructor
      · intro hc; cases hc
      · intro hc; omega
    · constructor
      · intro _; omega
      · intro _; rfl
  · rw [if_neg h]
    constructor
    · constructor
      · intro _; omega
      · intro _; rfl
    · constructor
      · intro hc; cases hc
      · intro hc; omega

/-- The role-name component of the resolved profile is the sorted role-name
set of the collection loops. -/
theorem build_access_profile_roleNames (u : User) (systemReports : List Report) :
    (build_access_profile u systemReports).roleNames =
      sortedStrings (resolveState u).role_names := rfl

/-- C2: permission resolution collects exactly the active roles directly
attached to the account plus the active roles of its active groups: a name is
resolved iff it belongs to such a role, and the merged permission dicts are
exactly those of these roles, so an inactive role (or the roles of an
inactive group) contributes neither its name nor its permissions. -/
theorem C2_only_active_roles_collected (u : User) (systemReports : List Report) (n : String) :
    (n ∈ (build_access_profile u systemReports).roleNames ↔
      (∃ r ∈ u.roles, r.is_active = true ∧ r.role_name = n) ∨
        ∃ g ∈ u.groups, g.is_active = true ∧
          ∃ r ∈ g.roles, r.is_active = true ∧ r.role_name = n) ∧
    (resolveState u).permission_sources =
      ((u.roles.filter fun r => r.is_active).map fun r => r.permissions) ++
        (u.groups.filter fun g => g.is_active).flatMap
          (fun g => (g.roles.filter fun r => r.is_active).map fun r => r.permissions) := by
  constructor
  · rw [build_access_profile_roleNames]
    unfold sortedStrings
    rw [(List.perm_insertionSort StrLe _).mem_iff]
    exact mem_resolveState_role_names u n
  · exact resolveState_permission_sources u

/-- C3 as frozen: merging permission maps yields, per resource, the set union
of all actions contributed by every map (membership form), with every action
list sorted. -/
def combine_claim : Prop :=
  (∀ (maps : List PermMap) (r a : String),
    memPerm (combine_permission_maps maps) r a ↔ ∃ mp ∈ maps, memPerm mp r a) ∧
  ∀ (maps : List PermMap), ∀ p ∈ combine_permission_maps maps, List.Sorted StrLe p.2

/-- C3 counterexample: a map granting the empty-string action on a resource;
the merge filters falsy actions, so the claimed union does not contain it. -/
theorem C3_counterexample_empty_action : ¬ combine_claim := by
  intro h
  have h2 := (h.1 [[("reports", [""])]] "reports" "").mpr
    ⟨[("reports", [""])], List.mem_singleton.mpr rfl,
      [""], List.mem_singleton.mpr rfl, List.mem_singleton.mpr rfl⟩
  rcases h2 with ⟨acts, hmem, hin⟩
  have hc : combine_permission_maps [[("reports", [""])]] = [("reports", [])] := by decide
  rw [hc] at hmem
  have hacts : acts = [] := congrArg Prod.snd (List.mem_singleton.mp hmem)
  rw [hacts] at hin
  cases hin

/-- C3 amended: merging permission maps yields, per resource, the set union
of all non-empty actions contributed by every map for that resource (never
overwriting), with each resource's action list sorted lexicographically. -/
theorem C3_merge_additive_union (maps : List PermMap) (r a : String) :
    (memPerm (combine_permission_maps maps) r a ↔
      a ≠ "" ∧ ∃ mp ∈ maps, memPerm mp r a) ∧
    ∀ p ∈ combine_permission_maps maps, List.Sorted StrLe p.2 :=
  ⟨memPerm_combine maps r a, sorted_combine maps⟩

/-- C3 witness: the read and write grants of two maps on one resource are
additively merged and the result is sorted. -/
theorem C3_merge_additive_union_witness :
    memPerm (combine_permission_maps [[("reports", ["read"])], [("reports", ["write"])]])
        "reports" "read" ∧
      List.Sorted StrLe (("reports", ["read", "write"]) : String × List String).2 := by
  constructor
  · exact (C3_merge_additive_union [[("reports", ["read"])], [("reports", ["write"])]]
      "reports" "read").1.mpr
      ⟨by decide, [("reports", ["read"])], List.mem_cons_self _ _,
        ["read"], List.mem_singleton.mpr rfl, List.mem_singleton.mpr rfl⟩
  · exact (C3_merge_additive_union [[("reports", ["read"])], [("reports", ["write"])]]
      "reports" "read").2 ("reports", ["read", "write"]) (by decide)

/-- C10: when a role has at least one Role↔Report join row the resolver keys
exactly the active, viewable granted report codes; with zero join rows it
falls back to the legacy reports collection, keying every active report there
with no can_view filtering. -/
theorem C10_assignment_rows_beat_legacy (role : Role) (k : String) :
    (∃ e, (k, e) ∈ collect_reports role []) ↔
      (if List.isEmpty role.report_assignments then
        ∃ rep ∈ role.reports, rep.is_active = true ∧ rep.report_code = k
      else
        ∃ a ∈ role.report_assignments, a.can_view = true ∧ a.report.is_active = true ∧
          a.report.report_code = k) := by
  by_cases hemp : List.isEmpty role.report_assignments
  · simp only [collect_reports, if_pos hemp]
    rw [collectFromLegacy_eq_foldGuard, key_mem_foldGuard]
    simp
  · simp only [collect_reports, if_neg hemp]
    rw [collectFromAssignments_eq_foldGuard, key_mem_foldGuard]
    simp [Bool.and_eq_true, and_assoc]

/-- With the admin role present, the escape hatch is a guarded fold over the
active reports of the system. -/
theorem escapeHatchMap_of_admin (u : User) (systemReports : List Report)
    (h : "admin" ∈ (resolveState u).role_names) :
    escapeHatchMap u systemReports =
      foldGuard (fun _ => true) (fun r => r.report_code) entryOfReport
        (systemReports.filter fun r => r.is_active) (resolveState u).report_map := by
  unfold escapeHatchMap foldGuard
  rw [if_pos h]
  apply List.foldl_ext
  intro acc rep _
  simp

/-- Without the admin role the escape hatch leaves the report dict alone. -/
theorem escapeHatchMap_of_not_admin (u : User) (systemReports : List Report)
    (h : "admin" ∉ (resolveState u).role_names) :
    escapeHatchMap u systemReports = (resolveState u).report_map := by
  unfold escapeHatchMap
  rw [if_neg h]

/-- Every entry of the post-hatch report dict comes from a reachable or
system report, keyed by its code and carrying its entry. -/
theorem mem_escapeHatchMap {u : User} {systemReports : List Report}
    {p : String × ReportEntry} (h : p ∈ escapeHatchMap u systemReports) :
    ∃ rep ∈ allSourceReports u systemReports, p = (rep.report_code, entryOfReport rep) := by
  by_cases hadm : "admin" ∈ (resolveState u).role_names
  · rw [escapeHatchMap_of_admin u systemReports hadm] at h
    rcases mem_of_mem_foldGuard h with h1 | ⟨x, hx, _, hp⟩
    · rcases mem_report_map_resolveState h1 with ⟨rep, hrep, hp⟩
      exact ⟨rep, List.mem_append_left _ hrep, hp⟩
    · exact ⟨x, List.mem_append_right _ (List.mem_of_mem_filter hx), hp⟩
  · rw [escapeHatchMap_of_not_admin u systemReports hadm] at h
    rcases mem_report_map_resolveState h with ⟨rep, hrep, hp⟩
    exact ⟨rep, List.mem_append_left _ hrep, hp⟩

/-- The reports component of the resolved profile in terms of the escape
hatch dict. -/
theorem build_access_profile_reports (u : User) (systemReports : List Report) :
    (build_access_profile u systemReports).reports =
      (if List.isEmpty (escapeHatchMap u systemReports) then []
       else List.insertionSort EntryLe
         ((escapeHatchMap u systemReports).map fun p => p.2)) := rfl

/-- C1: an account whose resolved roleNames contains "admin" sees every
active report of the system in its reports output (as its code-name-route
entry), regardless of which Role↔Report grants exist; an account without the
admin role and with no grants (no join rows and no legacy links on any of its
roles, direct or via groups) has an empty reports list.  The injectivity
hypothesis mirrors the unique constraint on report codes. -/
theorem C1_admin_escape_hatch (u : User) (systemReports : List Report)
    (hinj : ∀ r1 ∈ allSourceReports u systemReports,
      ∀ r2 ∈ allSourceReports u systemReports, r1.report_code = r2.report_code → r1 = r2) :
    ("admin" ∈ (build_access_profile u systemReports).roleNames →
      ∀ R ∈ systemReports, R.is_active = true →
        entryOfReport R ∈ (build_access_profile u systemReports).reports) ∧
    (("admin" ∉ (build_access_profile u systemReports).roleNames ∧
      (∀ r ∈ u.roles, r.report_assignments = [] ∧ r.reports = []) ∧
      (∀ g ∈ u.groups, ∀ r ∈ g.roles, r.report_assignments = [] ∧ r.reports = [])) →
      (build_access_profile u systemReports).reports = []) := by
  have hmemname : ∀ n, n ∈ (build_access_profile u systemReports).roleNames ↔
      n ∈ (resolveState u).role_names := by
    intro n
    rw [build_access_profile_roleNames]
    exact (List.perm_insertionSort StrLe _).mem_iff
  constructor
  · intro hadm R hR hact
    have hadm2 : "admin" ∈ (resolveState u).role_names := (hmemname "admin").mp hadm
    have hRf : R ∈ systemReports.filter fun r => r.is_active :=
      List.mem_filter.mpr ⟨hR, hact⟩
    have hkey : ∃ e, (R.report_code, e) ∈ escapeHatchMap u systemReports := by
      rw [escapeHatchMap_of_admin u systemReports hadm2]
      exact (key_mem_foldGuard _ _ _ _ _ _).mpr (Or.inr ⟨R, hRf, rfl, rfl⟩)
    rcases hkey with ⟨e, he⟩
    rcases mem_escapeHatchMap he with ⟨rep, hrep, hp⟩
    have hcode : R.report_code = rep.report_code := congrArg Prod.fst hp
    have hentry : e = entryOfReport rep := congrArg Prod.snd hp
    have hRsrc : R ∈ allSourceReports u systemReports := List.mem_append_right _ hR
    have hrR : rep = R := hinj rep hrep R hRsrc hcode.symm
    rw [build_access_profile_reports]
    have hne : escapeHatchMap u systemReports ≠ [] := List.ne_nil_of_mem he
    rw [if_neg (by simpa [List.isEmpty_iff] using hne)]
    rw [(List.perm_insertionSort EntryLe _).mem_iff]
    have : e ∈ (escapeHatchMap u systemReports).map fun p => p.2 :=
      List.mem_map_of_mem _ he
    rw [hentry, hrR] at this
    exact this
  · rintro ⟨hnadm, hroles, hgroups⟩
    have hnadm2 : "admin" ∉ (resolveState u).role_names :=
      fun h => hnadm ((hmemname "admin").mpr h)
    have hsrc : userSourceReports u = [] := by
      rw [List.eq_nil_iff_forall_not_mem]
      intro rep hrep
      rcases List.mem_append.mp hrep with h1 | h1
      · rcases List.mem_flatMap.mp h1 with ⟨r, hr, hrep2⟩
        rcases hroles r hr with ⟨ha, hl⟩
        rw [roleSourceReports, ha, hl] at hrep2
        cases hrep2
      · rcases List.mem_flatMap.mp h1 with ⟨g, hg, hrep2⟩
        rcases List.mem_flatMap.mp hrep2 with ⟨r, hr, hrep3⟩
        rcases hgroups g hg r hr with ⟨ha, hl⟩
        rw [roleSourceReports, ha, hl] at hrep3
        cases hrep3
    have hmap : (resolveState u).report_map = [] := by
      rw [List.eq_nil_iff_forall_not_mem]
      intro p hp
      rcases mem_report_map_resolveState hp with ⟨rep, hrep, _⟩
      rw [hsrc] at hrep
      cases hrep
    rw [build_access_profile_reports, escapeHatchMap_of_not_admin u systemReports hnadm2, hmap]
    rfl

/-- Sample active report for the claim witnesses. -/
def wSysReport : Report :=
  { report_id := 10, report_code := "sales", report_name := "Sales",
    route_path := some "/sales", is_active := true }

/-- Sample admin role with no explicit grants. -/
def wAdminRole : Role :=
  { role_id := 1, role_name := "admin", is_active := true, permissions := [("admin", ["read"])],
    report_assignments := [], reports := [] }

/-- Sample non-admin role with no grants. -/
def wViewerRole : Role :=
  { role_id := 2, role_name := "viewer", is_active := true,
    permissions := [("dashboard", ["read"])], report_assignments := [], reports := [] }

/-- Sample account holding the admin role. -/
def wAdminUser : User :=
  { user_id := 1, username := "alice", is_active := true, roles := [wAdminRole], groups := [] }

/-- Sample non-admin account with zero grants. -/
def wViewerUser : User :=
  { user_id := 2, username := "bob", is_active := true, roles := [wViewerRole], groups := [] }

/-- C1 witness: the admin account sees the system report despite having no
grant rows; the grantless viewer account sees nothing. -/
theorem C1_admin_escape_hatch_witness :
    entryOfReport wSysReport ∈ (build_access_profile wAdminUser [wSysReport]).reports ∧
      (build_access_profile wViewerUser [wSysReport]).reports = [] := by
  constructor
  · exact (C1_admin_escape_hatch wAdminUser [wSysReport] (by decide)).1 (by decide)
      wSysReport (by decide) (by decide)
  · exact (C1_admin_escape_hatch wViewerUser [wSysReport] (by decide)).2
      ⟨by decide, by decide, by decide⟩

/-- Unfolding open_session on a present cookie. -/
theorem open_session_some (db : List SessionRow) (sid : String) (now : Int)
    (freshTok : String) :
    open_session db (some sid) now freshTok =
      (if sid = "" then (db, freshHandle freshTok)
       else
         match findRow db sid with
         | none => (db, freshHandle freshTok)
         | some record =>
           if record.is_active = false ∨ record.expires_at ≤ now then
             (updateRowTok db sid fun r => { r with is_active := false, expires_at := now },
              freshHandle freshTok)
           else (db, { sid := sid, new := false, data := record.session_data })) := rfl

/-- C4: loading a session whose row is missing, inactive or expired returns
a fresh anonymous session; when a stale row existed it is additionally
tombstoned (inactive, expires_at = now), so any later load of the same token
also returns a fresh session. -/
theorem C4_stale_load_tombstones (db : List SessionRow) (sid : String) (now : Int)
    (freshTok : String) (hsid : sid ≠ "") :
    (findRow db sid = none →
      open_session db (some sid) now freshTok = (db, freshHandle freshTok)) ∧
    (∀ r, findRow db sid = some r → r.is_active = false ∨ r.expires_at ≤ now →
      (open_session db (some sid) now freshTok).2 = freshHandle freshTok ∧
      findRow (open_session db (some sid) now freshTok).1 sid =
        some { r with is_active := false, expires_at := now } ∧
      ∀ (now2 : Int) (freshTok2 : String),
        (open_session (open_session db (some sid) now freshTok).1 (some sid) now2
          freshTok2).2 = freshHandle freshTok2) := by
  constructor
  · intro h
    rw [open_session_some, if_neg hsid]
    simp only [h]
  · intro r hr hstale
    have hupd : findRow (updateRowTok db sid fun x =>
        { x with is_active := false, expires_at := now }) sid =
        some { r with is_active := false, expires_at := now } :=
      find?_map_ite db _ _ r (fun _ => rfl) hr
    have hopen : open_session db (some sid) now freshTok =
        (updateRowTok db sid fun x => { x with is_active := false, expires_at := now },
          freshHandle freshTok) := by
      rw [open_session_some, if_neg hsid]
      simp only [hr]
      rw [if_pos hstale]
    refine ⟨by rw [hopen], by rw [hopen]; exact hupd, ?_⟩
    intro now2 freshTok2
    rw [hopen]
    simp [open_session_some, hsid, hupd]

/-- An expired-but-active session row for the C4 witness. -/
def wExpiredRow : SessionRow :=
  { session_token := "t"
    user_id := JVal.nat 1
    expires_at := 5
    is_active := true
    session_data := [("user_id", JVal.nat 1)]
    ip_address := none
    user_agent := none }

/-- C4 witness: a concrete expired-but-active row is reported missing,
tombstoned, and unusable afterwards. -/
theorem C4_stale_load_tombstones_witness :
    (open_session [wExpiredRow] (some "t") 9 "f").2 = freshHandle "f" ∧
    findRow (open_session [wExpiredRow] (some "t") 9 "f").1 "t" =
      some { wExpiredRow with is_active := false, expires_at := 9 } ∧
    ∀ (now2 : Int) (freshTok2 : String),
      (open_session (open_session [wExpiredRow] (some "t") 9 "f").1 (some "t") now2
        freshTok2).2 = freshHandle freshTok2 :=
  (C4_stale_load_tombstones [wExpiredRow] "t" 9 "f" (by decide)).2
    wExpiredRow (by decide) (by decide)

/-- C5 as frozen: every successful login binds the profile to a token
different from the one the client presented. -/
def login_rotates_token_claim : Prop :=
  ∀ (db : List SessionRow) (presented : String) (now : Int) (freshTok : String)
    (profileData : List (String × JVal)) (expires : Int) (ip ua : Option String) (uid : JVal),
    dataGet profileData "user_id" = some uid →
    (login_flow db (some presented) now freshTok profileData expires ip ua).2 ≠ presented

/-- A live authenticated session row for the C5 counterexample. -/
def wLiveRow : SessionRow :=
  { session_token := "t", user_id := JVal.nat 1, expires_at := 100, is_active := true,
    session_data := [("user_id", JVal.nat 1)], ip_address := none, user_agent := none }

/-- C5 counterexample: a login presented with a token that still resolves to
a live session row keeps that token — no rotation happens. -/
theorem C5_counterexample_live_token_kept : ¬ login_rotates_token_claim := by
  intro h
  exact h [wLiveRow] "t" 0 "f" [("user_id", JVal.nat 2)] 300 none none (JVal.nat 2) rfl
    (by decide)

/-- C5 amended: when the presented token does not resolve to a live session
row at load time — in particular on the Anonymous-to-Authenticated
transition, since anonymous sessions are never persisted — the login binds
the profile to the freshly generated token, which differs from the presented
one. -/
theorem C5_fresh_token_on_anonymous_login (db : List SessionRow) (presented : String)
    (now : Int) (freshTok : String) (profileData : List (String × JVal)) (expires : Int)
    (ip ua : Option String)
    (hstale : ∀ r, findRow db presented = some r → r.is_active = false ∨ r.expires_at ≤ now)
    (hfresh : freshTok ≠ presented) :
    (login_flow db (some presented) now freshTok profileData expires ip ua).2 = freshTok ∧
    (login_flow db (some presented) now freshTok profileData expires ip ua).2 ≠ presented := by
  have hsid : (open_session db (some presented) now freshTok).2.sid = freshTok := by
    by_cases hp : presented = ""
    · rw [open_session_some, if_pos hp]
      rfl
    · rw [open_session_some, if_neg hp]
      cases hrow : findRow db presented with
      | none => simp only [hrow]; rfl
      | some r =>
        simp only [hrow]
        rw [if_pos (hstale r hrow)]
        rfl
  have hflow : (login_flow db (some presented) now freshTok profileData expires ip ua).2 =
      (open_session db (some presented) now freshTok).2.sid := rfl
  rw [hflow, hsid]
  exact ⟨rfl, hfresh⟩

/-- A stale (expired) session row for the C5 witness. -/
def wStaleRow : SessionRow :=
  { session_token := "t", user_id := JVal.nat 1, expires_at := 5, is_active := true,
    session_data := [("user_id", JVal.nat 1)], ip_address := none, user_agent := none }

/-- C5 witness: logging in over an expired presented token binds the profile
to the fresh token. -/
theorem C5_fresh_token_on_anonymous_login_witness :
    (login_flow [wStaleRow] (some "t") 9 "f" [("user_id", JVal.nat 2)] 300 none none).2 = "f" ∧
    (login_flow [wStaleRow] (some "t") 9 "f" [("user_id", JVal.nat 2)] 300 none none).2 ≠ "t" :=
  C5_fresh_token_on_anonymous_login [wStaleRow] "t" 9 "f" [("user_id", JVal.nat 2)] 300
    none none (by decide) (by decide)

/-- C6: saving a handle that carries no accountId never inserts a session
row — the store is unchanged when no row exists for the token — and
deactivates the existing row for the token when one does exist; the row count
never grows. -/
theorem C6_anonymous_save_never_inserts (db : List SessionRow) (h : SessionHandle)
    (now expires : Int) (ip ua : Option String)
    (hanon : dataGet h.data "user_id" = none) (hsid : h.sid ≠ "") :
    (findRow db h.sid = none → (save_session db h now expires ip ua).1 = db) ∧
    (∀ r, findRow db h.sid = some r →
      ∃ r2, findRow (save_session db h now expires ip ua).1 h.sid = some r2 ∧
        r2.is_active = false) ∧
    (save_session db h now expires ip ua).1.length = db.length := by
  by_cases hemp : List.isEmpty h.data
  · have hsave : (save_session db h now expires ip ua).1 =
        updateRowTok db h.sid fun r => { r with is_active := false, expires_at := now } := by
      unfold save_session
      rw [if_pos hemp, if_neg hsid]
    refine ⟨?_, ?_, ?_⟩
    · intro hnone
      rw [hsave]
      exact map_ite_of_find?_none _ _ _ hnone
    · intro r hr
      rw [hsave]
      exact ⟨{ r with is_active := false, expires_at := now },
             find?_map_ite db _ _ r (fun _ => rfl) hr, rfl⟩
    · rw [hsave]
      exact List.length_map _ _
  · have hunfold : (save_session db h now expires ip ua).1 =
        (match findRow db h.sid with
         | none => db
         | some _ =>
           updateRowTok db h.sid fun r =>
             { r with is_active := false, expires_at := now, session_data := h.data,
                      ip_address := ip, user_agent := ua }) := by
      unfold save_session
      rw [if_neg hemp, hanon]
    refine ⟨?_, ?_, ?_⟩
    · intro hnone
      rw [hunfold]
      simp only [hnone]
    · intro r hr
      rw [hunfold]
      simp only [hr]
      refine ⟨{ r with is_active := false, expires_at := now, session_data := h.data,
                       ip_address := ip, user_agent := ua }, ?_, rfl⟩
      exact find?_map_ite db _ _ r (fun _ => rfl) hr
    · rw [hunfold]
      cases hrow : findRow db h.sid with
      | none => rfl
      | some r =>
        simp only [hrow]
        exact List.length_map _ _

/-- C6 witness: an anonymous save with no matching row leaves the store
unchanged, and with a matching row deactivates it. -/
theorem C6_anonymous_save_never_inserts_witness :
    ((save_session [] (freshHandle "s") 9 300 none none).1 = [] ∧
      (save_session [] (freshHandle "s") 9 300 none none).1.length = 0) ∧
    ∃ r2, findRow (save_session [wLiveRow]
        { sid := "t", new := false, data := [("k", JVal.str "v")] } 9 300 none none).1 "t" =
        some r2 ∧ r2.is_active = false := by
  constructor
  · constructor
    · exact (C6_anonymous_save_never_inserts [] (freshHandle "s") 9 300 none none
        (by decide) (by decide)).1 (by decide)
    · exact (C6_anonymous_save_never_inserts [] (freshHandle "s") 9 300 none none
        (by decide) (by decide)).2.2
  · exact (C6_anonymous_save_never_inserts [wLiveRow]
      { sid := "t", new := false, data := [("k", JVal.str "v")] } 9 300 none none
      (by decide) (by decide)).2.1 wLiveRow (by decide)

/-- The element find? returns satisfies the predicate. -/
theorem find?_pred {α : Type} {p : α → Bool} {a : α} {l : List α}
    (h : l.find? p = some a) : p a = true := List.find?_some h

/-- A selective map is the identity when the update fixes every selected
element. -/
theorem map_ite_id {α : Type} (l : List α) (p : α → Bool) (f : α → α)
    (h : ∀ x ∈ l, p x = true → f x = x) :
    (l.map fun x => if p x then f x else x) = l := by
  induction l with
  | nil => rfl
  | cons x xs ih =>
    simp only [List.map_cons]
    rw [ih fun y hy hp => h y (List.mem_cons_of_mem _ hy) hp]
    by_cases hx : p x = true
    · rw [if_pos hx, h x (List.mem_cons_self _ _) hx]
    · rw [if_neg hx]

/-- Attaching a role never changes the user id. -/
theorem attachRole_user_id (role : Role) (u : User) :
    (attachRole role u).user_id = u.user_id := by
  unfold attachRole
  split <;> rfl

/-- After attaching, the user always holds a role with the attached id. -/
theorem attachRole_any (role : Role) (u : User) :
    (attachRole role u).roles.any (fun r => r.role_id == role.role_id) = true := by
  unfold attachRole
  split
  · rename_i h
    exact h
  · simp [List.any_append]

/-- Attaching to a user that already holds the role id is the identity. -/
theorem attachRole_of_any (role : Role) (u : User)
    (h : u.roles.any (fun r => r.role_id == role.role_id) = true) :
    attachRole role u = u := by
  unfold attachRole
  rw [if_pos h]

/-- C8: assigning a role twice is a no-op — the second assignment returns the
store of the first unchanged — the user ends up holding exactly one grant row
for the role id, and the resolved roleNames contains the role's name exactly
once.  The filter hypothesis mirrors the unique constraint on user-role rows
together with the ORM identity map. -/
theorem C8_idempotent_role_grant (db : AdminDB) (uid rid : Nat) (u : User) (role : Role)
    (db1 db2 : AdminDB)
    (hu : getUser db uid = some u)
    (hr : getRole db rid = some role)
    (hcount : u.roles.filter (fun r => r.role_id == rid) = [] ∨
      u.roles.filter (fun r => r.role_id == rid) = [role])
    (hactive : role.is_active = true)
    (h1 : assign_role_to_user db uid rid = Except.ok db1)
    (h2 : assign_role_to_user db1 uid rid = Except.ok db2) :
    db2 = db1 ∧
    getUser db1 uid = some (attachRole role u) ∧
    ((attachRole role u).roles.filter (fun r => r.role_id == rid)).length = 1 ∧
    ∀ systemReports,
      (build_access_profile (attachRole role u) systemReports).roleNames.count
        role.role_name = 1 := by
  have hr0 : db.roles.find? (fun r => r.role_id == rid) = some role := hr
  have hrid1 := find?_pred hr0
  have hrid : (role.role_id == rid) = true := by simpa using hrid1
  have hrid2 : role.role_id = rid := by simpa using hrid1
  simp only [assign_role_to_user, hu, hr] at h1
  have h1b : updateUser db uid (attachRole role) = db1 := Except.ok.inj h1
  have hgu1 : getUser db1 uid = some (attachRole role u) := by
    rw [← h1b]
    exact find?_map_ite db.users _ _ u (fun x => by rw [attachRole_user_id]) hu
  have hgr1 : getRole db1 rid = some role := by
    rw [← h1b]
    exact hr
  simp only [assign_role_to_user, hgu1, hgr1] at h2
  have h2b : updateUser db1 uid (attachRole role) = db2 := Except.ok.inj h2
  have hmem1 : role ∈ (attachRole role u).roles := by
    unfold attachRole
    by_cases hany : u.roles.any (fun r => r.role_id == role.role_id) = true
    · rw [if_pos hany]
      rcases List.any_eq_true.mp hany with ⟨r0, hr0, hr0id⟩
      rcases hcount with hc | hc
      · exfalso
        have : r0 ∈ u.roles.filter (fun r => r.role_id == rid) :=
          List.mem_filter.mpr ⟨hr0, by rw [← hrid2]; exact hr0id⟩
        rw [hc] at this
        cases this
      · have : role ∈ u.roles.filter (fun r => r.role_id == rid) := by
          rw [hc]
          exact List.mem_singleton.mpr rfl
        exact List.mem_of_mem_filter this
    · rw [if_neg hany]
      exact List.mem_append_right _ (List.mem_singleton.mpr rfl)
  refine ⟨?_, hgu1, ?_, ?_⟩
  · rw [← h2b]
    have husers : db1.users.map
        (fun x => if x.user_id == uid then attachRole role x else x) = db1.users := by
      apply map_ite_id
      intro x hx hpx
      rw [← h1b] at hx
      rcases List.mem_map.mp hx with ⟨x0, _, hx0⟩
      by_cases hp0 : (x0.user_id == uid) = true
      · rw [if_pos hp0] at hx0
        rw [← hx0]
        exact attachRole_of_any role (attachRole role x0) (attachRole_any role x0)
      · rw [if_neg hp0] at hx0
        rw [← hx0] at hpx
        exact absurd hpx hp0
    unfold updateUser
    rw [husers]
  · unfold attachRole
    by_cases hany : u.roles.any (fun r => r.role_id == role.role_id) = true
    · rw [if_pos hany]
      rcases hcount with hc | hc
      · exfalso
        rcases List.any_eq_true.mp hany with ⟨r0, hr0, hr0id⟩
        have : r0 ∈ u.roles.filter (fun r => r.role_id == rid) :=
          List.mem_filter.mpr ⟨hr0, by rw [← hrid2]; exact hr0id⟩
        rw [hc] at this
        cases this
      · rw [hc]
        rfl
    · rw [if_neg hany]
      rcases hcount with hc | hc
      · rw [List.filter_append, hc]
        simp [hrid]
      · exfalso
        apply hany
        have : role ∈ u.roles.filter (fun r => r.role_id == rid) := by
          rw [hc]
          exact List.mem_singleton.mpr rfl
        exact List.any_eq_true.mpr ⟨role, List.mem_of_mem_filter this, by simp⟩
  · intro systemReports
    have hnamemem : role.role_name ∈
        (build_access_profile (attachRole role u) systemReports).roleNames := by
      rw [build_access_profile_roleNames]
      unfold sortedStrings
      rw [(List.perm_insertionSort StrLe _).mem_iff]
      exact (mem_resolveState_role_names _ _).mpr
        (Or.inl ⟨role, hmem1, hactive, rfl⟩)
    have hnodup : (build_access_profile (attachRole role u) systemReports).roleNames.Nodup := by
      rw [build_access_profile_roleNames]
      unfold sortedStrings
      exact (List.perm_insertionSort StrLe _).symm.nodup
        (nodup_resolveState_role_names _)
    exact List.count_eq_one_of_mem hnodup hnamemem

/-- Sample account with no roles yet, for the C8 witness. -/
def wC8User : User :=
  { user_id := 5, username := "carol", is_active := true, roles := [], groups := [] }

/-- Sample admin store before the C8 assignment. -/
def wC8Db : AdminDB := { users := [wC8User], roles := [wViewerRole], reports := [] }

/-- Sample admin store after assigning the viewer role to the account. -/
def wC8Db1 : AdminDB :=
  { users := [{ wC8User with roles := [wViewerRole] }], roles := [wViewerRole], reports := [] }

/-- C8 witness: assigning the viewer role to the sample account twice leaves
the store of the first assignment unchanged, with one grant row and one
occurrence of the name in roleNames. -/
theorem C8_idempotent_role_grant_witness :
    wC8Db1 = wC8Db1 ∧
    getUser wC8Db1 5 = some (attachRole wViewerRole wC8User) ∧
    ((attachRole wViewerRole wC8User).roles.filter (fun r => r.role_id == 2)).length = 1 ∧
    ∀ systemReports,
      (build_access_profile (attachRole wViewerRole wC8User) systemReports).roleNames.count
        wViewerRole.role_name = 1 :=
  C8_idempotent_role_grant wC8Db 5 2 wC8User wViewerRole wC8Db1 wC8Db1 rfl rfl
    (Or.inl rfl) rfl rfl rfl

/-- C9 as frozen: revoking visibility with can_view=false preserves the
Role↔Report join row and its grant metadata, and no operation of the service
ever deletes a join row — in particular a successful remove_report_from_role
leaves the role's join-row count unchanged. -/
def role_report_rows_preserved_claim : Prop :=
  (∀ (db : AdminDB) (rid repid : Nat) (now : Int) (db2 : AdminDB) (role : Role),
    getRole db rid = some role →
    role.report_assignments.any (fun l => l.report_id == repid) = true →
    assign_report_to_role db rid repid false now = Except.ok db2 →
    ∃ role2, getRole db2 rid = some role2 ∧
      role2.report_assignments.length = role.report_assignments.length ∧
      ∀ l ∈ role.report_assignments, l.report_id = repid →
        ({ l with can_view := false } : RoleReport) ∈ role2.report_assignments) ∧
  (∀ (db : AdminDB) (rid repid : Nat) (db2 : AdminDB) (role role2 : Role),
    remove_report_from_role db rid repid = Except.ok db2 →
    getRole db rid = some role → getRole db2 rid = some role2 →
    role2.report_assignments.length = role.report_assignments.length)

/-- Sample viewable Role↔Report join row for the C9 claims. -/
def wC9Link : RoleReport :=
  { report_id := 10, can_view := true, assigned_at := 7, report := wSysReport }

/-- Sample role holding one report grant. -/
def wC9Role : Role :=
  { role_id := 3, role_name := "auditor", is_active := true, permissions := [],
    report_assignments := [wC9Link], reports := [] }

/-- Sample admin store for the C9 claims. -/
def wC9Db : AdminDB := { users := [], roles := [wC9Role], reports := [wSysReport] }

/-- The sample store after remove_report_from_role: the join row is gone. -/
def wC9DbRemoved : AdminDB :=
  { users := [], roles := [{ wC9Role with report_assignments := [] }],
    reports := [wSysReport] }

/-- C9 counterexample: remove_report_from_role on the sample store deletes
the Role↔Report join row (the count drops from 1 to 0), refuting the claim
that no operation deletes join rows. -/
theorem C9_counterexample_remove_deletes : ¬ role_report_rows_preserved_claim := by
  intro h
  have h2 := h.2 wC9Db 3 10 wC9DbRemoved wC9Role
    { wC9Role with report_assignments := [] } rfl rfl rfl
  exact absurd h2 (by decide)

/-- C9 amended: assign_report_to_role with can_view=false revokes visibility
by toggling the flag on the existing join row, preserving the row count and
the row's grant metadata (assigned_at and report survive); but
remove_report_from_role deletes the join row, dropping the role's join-row
count by one. -/
theorem C9_revoke_toggles_but_remove_deletes :
    (∀ (db : AdminDB) (rid repid : Nat) (now : Int) (db2 : AdminDB) (role : Role),
      getRole db rid = some role →
      role.report_assignments.any (fun l => l.report_id == repid) = true →
      assign_report_to_role db rid repid false now = Except.ok db2 →
      ∃ role2, getRole db2 rid = some role2 ∧
        role2.report_assignments.length = role.report_assignments.length ∧
        ∀ l ∈ role.report_assignments, l.report_id = repid →
          ({ l with can_view := false } : RoleReport) ∈ role2.report_assignments) ∧
    (∀ (db : AdminDB) (rid repid : Nat) (db2 : AdminDB) (role role2 : Role),
      remove_report_from_role db rid repid = Except.ok db2 →
      getRole db rid = some role → getRole db2 rid = some role2 →
      role2.report_assignments.length + 1 = role.report_assignments.length) := by
  constructor
  · intro db rid repid now db2 role hrole hany hok
    cases hrep : getReport db repid with
    | none =>
      rw [assign_report_to_role] at hok
      simp only [hrole, hrep] at hok
      cases hok
    | some report =>
      rw [assign_report_to_role] at hok
      simp only [hrole, hrep] at hok
      have hok2 := Except.ok.inj hok
      have hrole2 : getRole db2 rid = some
          (if role.report_assignments.any (fun l => l.report_id == repid) then
            { role with report_assignments := role.report_assignments.map fun l =>
                if l.report_id == repid then { l with can_view := false } else l }
          else
            { role with report_assignments := role.report_assignments ++
                [{ report_id := report.report_id, can_view := false,
                   assigned_at := now, report := report }] }) := by
        rw [← hok2]
        exact find?_map_ite db.roles _ _ role (fun x => by split <;> rfl) hrole
      rw [if_pos hany] at hrole2
      refine ⟨_, hrole2, List.length_map _ _, ?_⟩
      intro l hl hlid
      have hmap := List.mem_map_of_mem
        (fun l0 : RoleReport =>
          if l0.report_id == repid then { l0 with can_view := false } else l0) hl
      simpa [hlid] using hmap
  · intro db rid repid db2 role role2 hok hrole hrole2
    rw [remove_report_from_role] at hok
    simp only [hrole] at hok
    by_cases hany : role.report_assignments.any (fun l => l.report_id == repid) = true
    · rw [if_pos hany] at hok
      have hok2 := Except.ok.inj hok
      have hrole2b : getRole db2 rid = some
          { role with report_assignments :=
              role.report_assignments.eraseP fun l => l.report_id == repid } := by
        rw [← hok2]
        exact find?_map_ite db.roles _ _ role (fun x => rfl) hrole
      rw [hrole2] at hrole2b
      have hre : role2 = { role with report_assignments :=
          role.report_assignments.eraseP fun l => l.report_id == repid } :=
        Option.some.inj hrole2b
      rcases List.any_eq_true.mp hany with ⟨l0, hl0, hl0id⟩
      rw [hre]
      exact List.length_eraseP_add_one hl0 hl0id
    · rw [if_neg hany] at hok
      cases hok

/-- The sample store after revoking with can_view=false: the join row and its
metadata survive with the flag cleared. -/
def wC9DbRevoked : AdminDB :=
  { users := [],
    roles := [{ wC9Role with report_assignments := [{ wC9Link with can_view := false }] }],
    reports := [wSysReport] }

/-- C9 witness: on the sample store the can_view=false revocation keeps the
row (count 1, flag cleared, metadata intact) while remove drops the count
from 1 to 0. -/
theorem C9_revoke_toggles_but_remove_deletes_witness :
    (∃ role2, getRole wC9DbRevoked 3 = some role2 ∧
      role2.report_assignments.length = wC9Role.report_assignments.length ∧
      ∀ l ∈ wC9Role.report_assignments, l.report_id = 10 →
        ({ l with can_view := false } : RoleReport) ∈ role2.report_assignments) ∧
    ((({ wC9Role with report_assignments := [] } : Role)).report_assignments.length + 1 =
      wC9Role.report_assignments.length) := by
  constructor
  · exact (C9_revoke_toggles_but_remove_deletes.1 wC9Db 3 10 5 wC9DbRevoked wC9Role
      rfl rfl rfl)
  · exact (C9_revoke_toggles_but_remove_deletes.2 wC9Db 3 10 wC9DbRemoved wC9Role
      { wC9Role with report_assignments := [] } rfl rfl rfl)



end DashApp
